import Mathlib

/-!
Verification development for the beziyay incremental bezier curve fitter
(src/unnamed/part_000).  The TypeScript module is shallowly embedded:

* JS numbers are modelled by exact rationals.  `Math.sqrt` is modelled by
  `ratSqrt`, the floor square root of numerator and denominator, which is
  exact precisely on perfect squares (all square roots that feed branch
  decisions in the scenarios proved below are exact).  JS division by zero
  (which produces NaN or Infinity) is Lean total division, yielding 0.
* `Math.round` is floor of x + 1/2, matching JS round-half-up semantics.
* `radiansToDegrees (Math.acos dot) < MAX_CORNER_ANGLE` is modelled by
  `cos80 < dot` (arccos is strictly decreasing, so the angle is below 80
  degrees exactly when the cosine exceeds cos 80; `cos80` is a fixed
  rational approximation of cos 80, exact enough for every comparison
  appearing in the concrete runs below).
* The mutable module state (the `curve` variable and in-place segment
  mutation) is modelled by explicit state passing: functions take and
  return a `Curve`.
* The sparse 2D array `curve.vdmap` is modelled as a nested binary trie
  (`NatMap (NatMap Vec)`): the outer trie maps the encoded x coordinate to
  a column, the inner one the encoded y coordinate to the stored vector,
  which reproduces the read/overwrite semantics of the JS nested sparse
  arrays (`find` after `insert` on the same key sees the new value, on any
  other key the old one; nothing else is observable).
* A fresh JS segment has `error` and `steps` undefined; both are only
  ever read after being written (or normalised by `error || 0`), so the
  model initialises them to 0, which is observationally equal.
-/

namespace Beziyay

/-! ## Constants (verbatim from the source) -/

def MAX_ERROR : ℚ := 2

def FIELD_RADIUS : ℚ := 9

def NUM_SAMPLE_POINTS : ℕ := 9

def MAX_ITERATIONS : ℕ := 50

def RADIAL_SIMPLIFICATION : ℚ := 1

def SHOULD_USE_NEW_CORNER_FINDER : Bool := true

def SHOULD_USE_MY_FORCE_VECTORS : Bool := true

/-- Rational approximation of cos 80 degrees, used to model the comparison
`radiansToDegrees (Math.acos dot) < 80`. -/
def cos80 : ℚ := 1736481776669 / 10 ^ 13

/-! ## Vectors -/

structure Vec where
  x : ℚ
  y : ℚ
deriving DecidableEq

def vecZero : Vec := ⟨0, 0⟩

def addVec (a b : Vec) : Vec := ⟨a.x + b.x, a.y + b.y⟩

def negateVec (v : Vec) : Vec := ⟨-v.x, -v.y⟩

def subVec (a b : Vec) : Vec := addVec a (negateVec b)

def multVec (a : Vec) (s : ℚ) : Vec := ⟨a.x * s, a.y * s⟩

def divVec (a : Vec) (s : ℚ) : Vec := multVec a (1 / s)

def equalVec (a b : Vec) : Bool := decide (a.x = b.x) && decide (a.y = b.y)

def sumOfSquaresVec (v : Vec) : ℚ := v.x ^ 2 + v.y ^ 2

def dotProduct (a b : Vec) : ℚ := a.x * b.x + a.y * b.y

/-- Fueled integer Newton iteration for the floor square root (a kernel
reducible replacement for Nat.sqrt, whose well founded recursion the
kernel cannot evaluate). -/
def isqrtGo (n : ℕ) : ℕ → ℕ → ℕ
  | x, 0 => x
  | x, fuel + 1 =>
    let xn := (x + n / x) / 2
    if xn < x then isqrtGo n xn fuel else x

/-- Floor square root of a natural number.  Newton iteration started at n
strictly decreases until it first fails to decrease, at which point it
holds the floor square root; 256 fuel covers every number below 2 to the
500th power, far beyond any value appearing in this development. -/
def natSqrt (n : ℕ) : ℕ := if n ≤ 1 then n else isqrtGo n n 256

/-- Models `Math.sqrt` on rationals: floor square root of numerator over
floor square root of denominator.  Exact on perfect squares. -/
def ratSqrt (q : ℚ) : ℚ := (natSqrt q.num.toNat : ℚ) / (natSqrt q.den : ℚ)

def magnitudeVec (v : Vec) : ℚ := ratSqrt (sumOfSquaresVec v)

def getMagnitude (p p2 : Vec) : ℚ := ratSqrt ((p.x - p2.x) ^ 2 + (p.y - p2.y) ^ 2)

/-- Source lines 355-358.  There is no guard for the zero vector: the
components are divided by the magnitude unconditionally (in JS, 0/0 is
NaN; in this rational model total division yields 0). -/
def getUnitVector (v : Vec) : Vec :=
  let magnitude := getMagnitude v vecZero
  ⟨v.x / magnitude, v.y / magnitude⟩

def getDDASteps (diff : Vec) : ℚ := max |diff.x| |diff.y|

def getPerpindicularUnitVector (a b : Vec) : Vec :=
  getUnitVector ⟨b.y - a.y, -(b.x - a.x)⟩

def getScaledVectorDifference (uvec : Vec) : Vec :=
  ⟨uvec.x * FIELD_RADIUS, uvec.y * FIELD_RADIUS⟩

/-- Floor of a rational as an integer, via floor division of the numerator
by the denominator (kernel reducible). -/
def qFloor (q : ℚ) : ℤ := q.num.fdiv q.den

/-- Models `Math.round`: floor of q + 1/2. -/
def jround (q : ℚ) : ℚ := ((qFloor (q + 1 / 2) : ℤ) : ℚ)

def roundVec (v : Vec) : Vec := ⟨jround v.x, jround v.y⟩

def radiansToDegreesLtMax (dot : ℚ) : Bool := decide (cos80 < dot)

/-! ## Segments and curves -/

inductive UpdateStatus where
  | SUCCESS
  | FAIL_CORNER
  | FAIL_MAXED
deriving DecidableEq

structure Segment where
  c0 : Vec
  c1 : Vec
  c2 : Vec
  c3 : Vec
  constrain_to : Option Vec
  error : ℚ
  update_status : Option UpdateStatus
  steps : ℕ
deriving DecidableEq

def initCurveSegment (x y : ℚ) : Segment :=
  { c0 := ⟨x, y⟩, c1 := ⟨x, y⟩, c2 := ⟨x, y⟩, c3 := ⟨x, y⟩,
    constrain_to := none, error := 0, update_status := none, steps := 0 }

def defaultSegment : Segment := initCurveSegment 0 0

/-- A binary trie over natural number keys (least significant bit first),
used as an executable dictionary.  It models a JS sparse array or object:
`find` returns the stored value at exactly the given key, `insert` sets
it, nothing else is observable. -/
inductive NatMap (α : Type) where
  | nil
  | node (val : Option α) (ev od : NatMap α)
deriving DecidableEq

/-- Trie lookup, by fuel recursion on the bit length of the key (fuel
recursion keeps kernel evaluation lazy in the tree; 128 bits of fuel cover
every key in this development). -/
def NatMap.findGo {α : Type} : ℕ → NatMap α → ℕ → Option α
  | 0, _, _ => none
  | fuel + 1, t, k =>
    match t with
    | .nil => none
    | .node v l r =>
      if k = 0 then v
      else if k % 2 = 0 then NatMap.findGo fuel l (k / 2) else NatMap.findGo fuel r (k / 2)

def NatMap.insertGo {α : Type} : ℕ → NatMap α → ℕ → α → NatMap α
  | 0, t, _, _ => t
  | fuel + 1, t, k, a =>
    match t with
    | .nil =>
      if k = 0 then .node (some a) .nil .nil
      else if k % 2 = 0 then .node none (NatMap.insertGo fuel .nil (k / 2) a) .nil
      else .node none .nil (NatMap.insertGo fuel .nil (k / 2) a)
    | .node v l r =>
      if k = 0 then .node (some a) l r
      else if k % 2 = 0 then .node v (NatMap.insertGo fuel l (k / 2) a) r
      else .node v l (NatMap.insertGo fuel r (k / 2) a)

def NatMap.find {α : Type} (t : NatMap α) (k : ℕ) : Option α := NatMap.findGo 128 t k

def NatMap.insert {α : Type} (t : NatMap α) (k : ℕ) (a : α) : NatMap α :=
  NatMap.insertGo 128 t k a

/-- Injective encoding of an integer as a natural number. -/
def encInt (i : ℤ) : ℕ := if i < 0 then 2 * (-i).toNat - 1 else 2 * i.toNat

/-- Injective encoding of a rational as a natural number (JS uses the
coordinate value itself as the property name; the encoding plays that
role, injectively, for the trie). -/
def encRat (q : ℚ) : ℕ := Nat.pair (encInt q.num) q.den

/-- The vector distance map `curve.vdmap`: a sparse map from the x
coordinate to a sparse map from the y coordinate to the stored offset,
mirroring the JS nested sparse arrays. -/
abbrev VdMap := NatMap (NatMap Vec)

structure Curve where
  segments : List Segment
  vdmap : VdMap
deriving DecidableEq

def lastSegOf : List Segment → Segment
  | [] => defaultSegment
  | [s] => s
  | _ :: s :: rest => lastSegOf (s :: rest)

def getLastSegment (c : Curve) : Segment := lastSegOf c.segments

def replaceLast (s : Segment) : List Segment → List Segment
  | [] => []
  | [_] => [s]
  | a :: b :: rest => a :: replaceLast s (b :: rest)

def createCurve (p : Vec) : Curve :=
  { segments := [initCurveSegment p.x p.y], vdmap := NatMap.nil }

/-! ## Bezier evaluation -/

def singleComponentBezier (t w0 w1 w2 w3 : ℚ) : ℚ :=
  w0 * (1 - t) ^ 3 + w1 * 3 * t * (1 - t) ^ 2 + w2 * 3 * t ^ 2 * (1 - t) + w3 * t ^ 3

def getPointAlongCurve (c : Segment) (t : ℚ) : Vec :=
  ⟨singleComponentBezier t c.c0.x c.c1.x c.c2.x c.c3.x,
   singleComponentBezier t c.c0.y c.c1.y c.c2.y c.c3.y⟩

def getSegmentMidpoint (s : Segment) : Vec :=
  addVec (divVec (subVec s.c3 s.c0) 2) s.c0

def getCurveEndTangent (c : Segment) : Vec :=
  ⟨3 * (c.c2.x - c.c3.x), 3 * (c.c2.y - c.c3.y)⟩

/-! ## Distance field -/

/-- Reading `curve.vdmap[x][y]`. -/
def vdLookup (m : VdMap) (x y : ℚ) : Option Vec :=
  match m.find (encRat x) with
  | none => none
  | some col => col.find (encRat y)

/-- The truthiness test `curve.vdmap[x]` (a column, even an empty JS
array, is truthy; columns are only ever created together with a first
write, so presence of the column map is the faithful reading). -/
def vdColumn (m : VdMap) (x : ℚ) : Bool := (m.find (encRat x)).isSome

/-- The pixel write rule shared by the strip pass (source lines 150-164)
and the end cap pass (source lines 173-186): create the column if absent;
write the candidate when the cell is empty; otherwise store the already
stored value when it is strictly closer (smaller sum of squares) and the
candidate otherwise, so on ties the candidate replaces the stored value. -/
def vdStore (m : VdMap) (x y : ℚ) (v : Vec) : VdMap :=
  let col := match m.find (encRat x) with
    | none => NatMap.nil
    | some c => c
  let newv := match col.find (encRat y) with
    | none => v
    | some old => if sumOfSquaresVec old < sumOfSquaresVec v then old else v
  m.insert (encRat x) (col.insert (encRat y) newv)

def getDistanceFromPolyline (m : VdMap) (p : Vec) : Vec :=
  if vdColumn m p.x then
    let first := vdLookup m p.x p.y
    let second := vdLookup m p.x (p.y + 1)
    let val : Vec :=
      match first with
      | some f => ⟨f.x, f.y⟩
      | none => ⟨FIELD_RADIUS, FIELD_RADIUS⟩
    let vx : ℚ :=
      match second with
      | some sv => if |val.x| > |sv.x| then sv.x else val.x
      | none => val.x
    let vy : ℚ :=
      match second with
      | some sv => if |val.y| > |sv.y| then sv.y else val.y
      | none => val.y
    ⟨vx, vy⟩
  else ⟨FIELD_RADIUS, FIELD_RADIUS⟩

/-! ## Corner detector -/

def checkCorner (curveSegment : Segment) (point : Vec) : Bool :=
  if equalVec curveSegment.c0 curveSegment.c3 then false
  else
    let tanv :=
      if SHOULD_USE_NEW_CORNER_FINDER then
        getUnitVector (subVec (getPointAlongCurve curveSegment (19 / 20)) curveSegment.c3)
      else
        getUnitVector (getCurveEndTangent curveSegment)
    let new_segment := getUnitVector ⟨point.x - curveSegment.c3.x, point.y - curveSegment.c3.y⟩
    radiansToDegreesLtMax (dotProduct tanv new_segment)

/-! ## Rasterization (DDA strip and end cap) -/

/-- Number of iterations of a JS loop `for (i = 0; i < q; i++)`: the
ceiling of q, clamped to zero (kernel reducible). -/
def qSteps (q : ℚ) : ℕ := (-((-q.num).fdiv q.den)).toNat

def stripColumn (loc val inc : Vec) (m : VdMap) : ℕ → VdMap
  | 0 => m
  | n + 1 =>
    let rp := roundVec loc
    stripColumn (addVec loc inc) (addVec val inc) inc (vdStore m rp.x rp.y (roundVec val)) n

def stripRows (dist vinc : Vec) (vcount : ℕ) (hinc : Vec) : Vec → VdMap → ℕ → VdMap
  | _, m, 0 => m
  | hloc, m, n + 1 =>
    stripRows dist vinc vcount hinc (addVec hloc hinc) (stripColumn hloc dist vinc m vcount) n

/-- Source lines 119-167: rasterize the corridor of half width FIELD_RADIUS
around the straight segment from `last_point` to `current_point`. -/
def paintStrip (m : VdMap) (last_point current_point : Vec) : VdMap :=
  let perp_vec := getPerpindicularUnitVector last_point current_point
  let dist := getScaledVectorDifference perp_vec
  let a1 := addVec last_point dist
  let b1 := addVec current_point dist
  let vert_diff := negateVec (multVec dist 2)
  let vert_steps := getDDASteps vert_diff
  let vert_increment := divVec vert_diff vert_steps
  let horiz_diff := subVec b1 a1
  let horiz_steps := getDDASteps horiz_diff
  let horiz_increment := divVec horiz_diff horiz_steps
  stripRows dist vert_increment (qSteps vert_steps) horiz_increment a1 m (qSteps horiz_steps)

def capColumn (p : Vec) (x : ℚ) : ℚ → VdMap → ℕ → VdMap
  | _, m, 0 => m
  | y, m, n + 1 => capColumn p x (y + 1) (vdStore m x y (subVec ⟨x, y⟩ p)) n

def capRows (p : Vec) (ycount : ℕ) (uly : ℚ) : ℚ → VdMap → ℕ → VdMap
  | _, m, 0 => m
  | x, m, n + 1 => capRows p ycount uly (x + 1) (capColumn p x uly m ycount) n

/-- Source lines 169-186: stamp a square cap of side 2 * FIELD_RADIUS
centered on the endpoint with literal pixel minus point offsets. -/
def paintEndCap (m : VdMap) (current_point : Vec) : VdMap :=
  let upperLeftPoint := subVec current_point ⟨FIELD_RADIUS, FIELD_RADIUS⟩
  let bottomRightPoint := addVec current_point ⟨FIELD_RADIUS, FIELD_RADIUS⟩
  capRows current_point (qSteps (bottomRightPoint.y - upperLeftPoint.y)) upperLeftPoint.y
    upperLeftPoint.x m (qSteps (bottomRightPoint.x - upperLeftPoint.x))

/-! ## Iterative refiner (source lines 188-261) -/

/-- One pass of the force sampling loop (source lines 200-215): accumulate
the two force vectors over the sample points of the current curve. -/
def forcePair (m : VdMap) (s : Segment) : Vec × Vec :=
  (List.range NUM_SAMPLE_POINTS).foldl
    (fun f i =>
      let t : ℚ := (i : ℚ) / (NUM_SAMPLE_POINTS : ℚ)
      let point := roundVec (getPointAlongCurve s t)
      let dist := getDistanceFromPolyline m point
      let d := magnitudeVec dist
      let dx := dist.x
      let dy := dist.y
      let modifier : ℚ :=
        if SHOULD_USE_MY_FORCE_VECTORS && (decide (t < 1 / 10) || decide (t > 9 / 10)) then 10
        else 1
      (⟨f.1.x + t * (1 - t) ^ 2 * d * dx * modifier, f.1.y + t * (1 - t) ^ 2 * d * dy * modifier⟩,
       ⟨f.2.x + t ^ 2 * (1 - t) * d * dx * modifier, f.2.y + t ^ 2 * (1 - t) * d * dy * modifier⟩))
    (⟨0, 0⟩, ⟨0, 0⟩)

/-- The damping step (source lines 217-225) applied to the raw forces. -/
def dampedF1 (m : VdMap) (s : Segment) : Vec :=
  if SHOULD_USE_MY_FORCE_VECTORS then
    subVec (forcePair m s).1 (multVec (subVec (getSegmentMidpoint s) s.c1) (3 / 100))
  else (forcePair m s).1

def dampedF2 (m : VdMap) (s : Segment) : Vec :=
  if SHOULD_USE_MY_FORCE_VECTORS then
    subVec (forcePair m s).2 (multVec (subVec (getSegmentMidpoint s) s.c2) (3 / 100))
  else (forcePair m s).2

/-- The continuity constraint projection (source lines 227-233). -/
def appliedF1 (m : VdMap) (s : Segment) : Vec :=
  match s.constrain_to with
  | some v => multVec v (dotProduct v (dampedF1 m s))
  | none => dampedF1 m s

/-- The error sum of the (already updated) curve (source lines 243-252). -/
def errorMean (m : VdMap) (s : Segment) : ℚ :=
  ((List.range NUM_SAMPLE_POINTS).foldl
    (fun e i =>
      let t : ℚ := (i : ℚ) / (NUM_SAMPLE_POINTS : ℚ)
      let point := getPointAlongCurve s t
      let dist := getDistanceFromPolyline m (roundVec point)
      e + (dist.x ^ 2 + dist.y ^ 2)) 0) / (NUM_SAMPLE_POINTS : ℚ)

/-- One body of the `while (true)` refinement loop, recording the error and
the incremented step counter on the segment (source lines 191-256). -/
def refineOnce (m : VdMap) (s : Segment) (new_steps : ℕ) : Segment :=
  let alpha : ℚ := 1
  let f1 := appliedF1 m s
  let f2 := dampedF2 m s
  let s1 : Segment := { s with
    c1 := ⟨s.c1.x - alpha * f1.x * 6 / (NUM_SAMPLE_POINTS : ℚ),
           s.c1.y - alpha * f1.y * 6 / (NUM_SAMPLE_POINTS : ℚ)⟩
    c2 := ⟨s.c2.x - alpha * f2.x * 6 / (NUM_SAMPLE_POINTS : ℚ),
           s.c2.y - alpha * f2.y * 6 / (NUM_SAMPLE_POINTS : ℚ)⟩ }
  { s1 with error := errorMean m s1, steps := new_steps }

/-- The refinement loop.  `steps` is the loop counter of the source; `fuel`
bounds the recursion.  Called with fuel MAX_ITERATIONS + 1, the fuel never
runs out: the break condition `error < MAX_ERROR or steps > MAX_ITERATIONS`
(source line 260) fires no later than the iteration with counter 51, which
`refineLoop_exit` below makes precise. -/
def refineLoop (m : VdMap) : Segment → ℕ → ℕ → Segment
  | s, _, 0 => s
  | s, steps, fuel + 1 =>
    let s2 := refineOnce m s (steps + 1)
    if s2.error < MAX_ERROR ∨ MAX_ITERATIONS < steps + 1 then s2
    else refineLoop m s2 (steps + 1) fuel

/-! ## The refiner pipeline (source lines 101-278) -/

/-- The extend step (source lines 113-117): move the end anchor to the new
point and translate the second interior control by the same delta. -/
def extendSegment (s : Segment) (p : Vec) : Segment :=
  { s with
    c3 := p
    c2 := ⟨s.c2.x + p.x - s.c3.x, s.c2.y + p.y - s.c3.y⟩ }

/-- The distance field after painting the strip and the end cap for the
step from the active segment end to `p`. -/
def paintedMap (c : Curve) (p : Vec) : VdMap :=
  paintEndCap (paintStrip c.vdmap (getLastSegment c).c3 p) p

/-- The refinement loop result for the extended active segment against the
freshly painted field. -/
def refinedSeg (c : Curve) (p : Vec) : Segment :=
  refineLoop (paintedMap c p) (extendSegment (getLastSegment c) p) 0 (MAX_ITERATIONS + 1)

/-- The post-loop bookkeeping (source lines 263-277): on budget overrun
restore the entry snapshot `og` and mark FAIL_MAXED, otherwise mark
SUCCESS.  The snapshot (source line 106, `copySegment`) is taken at
function entry, before the corner check and the extend step. -/
def finalizeSeg (og r : Segment) : Segment :=
  if MAX_ITERATIONS < r.steps then
    { r with
      c0 := og.c0
      c1 := og.c1
      c2 := og.c2
      c3 := og.c3
      error := og.error
      constrain_to := og.constrain_to
      update_status := some UpdateStatus.FAIL_MAXED }
  else
    { r with update_status := some UpdateStatus.SUCCESS }

/-- Source lines 101-278: the full refiner.  Returns the updated curve
(the JS code mutates the last segment and the vdmap in place) together
with the returned segment. -/
def updateDistanceField (c : Curve) (current_point : Vec) : Curve × Segment :=
  let segment := getLastSegment c
  if checkCorner segment current_point then
    let s2 := { segment with update_status := some UpdateStatus.FAIL_CORNER }
    ({ c with segments := replaceLast s2 c.segments }, s2)
  else
    let s3 := finalizeSeg segment (refinedSeg c current_point)
    ({ c with segments := replaceLast s3 c.segments, vdmap := paintedMap c current_point }, s3)

/-! ## Orchestrator (source lines 11-99) -/

/-- Source lines 71-99.  Duplicate suppression, then segment creation when
the stored status is a failure, then the refiner. -/
def addToCurveImpl (c : Curve) (new_point : Vec) : Curve × Segment :=
  let last_segment := getLastSegment c
  if getMagnitude new_point last_segment.c3 < RADIAL_SIMPLIFICATION then (c, last_segment)
  else
    let c2 : Curve :=
      match last_segment.update_status with
      | some UpdateStatus.FAIL_CORNER =>
        { segments := c.segments ++ [initCurveSegment last_segment.c3.x last_segment.c3.y]
          vdmap := NatMap.nil }
      | some UpdateStatus.FAIL_MAXED =>
        { segments := c.segments ++
            [{ initCurveSegment last_segment.c3.x last_segment.c3.y with
               constrain_to := some (getUnitVector (getCurveEndTangent last_segment)) }]
          vdmap := NatMap.nil }
      | _ => c
    updateDistanceField c2 new_point

/-- Source lines 15-22: round the coordinate, run the refiner, and when the
status is not SUCCESS run it exactly once more with the same rounded point,
returning that second result unconditionally. -/
def addToCurve (c : Curve) (coord : Vec) : Curve × Segment :=
  let rounded_coord := roundVec coord
  let r1 := addToCurveImpl c rounded_coord
  if r1.2.update_status = some UpdateStatus.SUCCESS then r1
  else addToCurveImpl r1.1 rounded_coord

/-- Source lines 11-13. -/
def startCurve (coord : Vec) : Curve := createCurve (roundVec coord)

/-- An API session: one StartCurve call followed by one AddToCurve call per
point, threading the module level curve state. -/
def runCurve (start : Vec) (pts : List Vec) : Curve × Segment :=
  pts.foldl (fun acc p => addToCurve acc.1 p)
    (startCurve start, getLastSegment (startCurve start))

/-! ## Helper lemmas: last segment and in place replacement -/

theorem lastSegOf_append_singleton (l : List Segment) (s : Segment) :
    lastSegOf (l ++ [s]) = s := by
  induction l with
  | nil => rfl
  | cons a t ih =>
    cases t with
    | nil => rfl
    | cons b t2 => exact ih

theorem lastSegOf_mem : ∀ l : List Segment, l ≠ [] → lastSegOf l ∈ l
  | [], h => absurd rfl h
  | [s], _ => by simp [lastSegOf]
  | a :: b :: rest, _ => by
    have := lastSegOf_mem (b :: rest) (by simp)
    simp only [lastSegOf]
    exact List.mem_cons_of_mem a this

theorem replaceLast_length (x : Segment) : ∀ l : List Segment,
    (replaceLast x l).length = l.length
  | [] => rfl
  | [_] => rfl
  | a :: b :: rest => by
    simp only [replaceLast, List.length_cons]
    rw [replaceLast_length x (b :: rest)]
    simp

theorem lastSegOf_replaceLast (x : Segment) : ∀ l : List Segment, l ≠ [] →
    lastSegOf (replaceLast x l) = x
  | [], h => absurd rfl h
  | [_], _ => rfl
  | a :: b :: rest, _ => by
    simp only [replaceLast]
    have hne : replaceLast x (b :: rest) ≠ [] := by
      cases rest <;> simp [replaceLast]
    have := lastSegOf_replaceLast x (b :: rest) (by simp)
    rcases hrep : replaceLast x (b :: rest) with _ | ⟨c, t⟩
    · exact absurd hrep hne
    · rw [hrep] at this
      simpa [lastSegOf] using this

theorem mem_replaceLast (x : Segment) : ∀ (l : List Segment) (s : Segment),
    s ∈ replaceLast x l → s ∈ l ∨ s = x
  | [], s, h => by simp [replaceLast] at h
  | [a], s, h => by
    simp only [replaceLast, List.mem_singleton] at h
    exact Or.inr h
  | a :: b :: rest, s, h => by
    simp only [replaceLast, List.mem_cons] at h
    rcases h with rfl | h
    · exact Or.inl (List.mem_cons_self _ _)
    · rcases mem_replaceLast x (b :: rest) s h with h2 | h2
      · exact Or.inl (List.mem_cons_of_mem _ h2)
      · exact Or.inr h2

theorem replaceLast_append_singleton (x s : Segment) : ∀ l : List Segment,
    replaceLast x (l ++ [s]) = l ++ [x]
  | [] => rfl
  | [a] => rfl
  | a :: b :: rest => by
    have := replaceLast_append_singleton x s (b :: rest)
    simpa [replaceLast] using this

theorem dropLast_append_singleton (l : List Segment) (s : Segment) :
    (l ++ [s]).dropLast = l := by
  simp

/-! ## Helper lemmas: one refinement pass -/

theorem refineOnce_c0 (m : VdMap) (s : Segment) (n : ℕ) : (refineOnce m s n).c0 = s.c0 := rfl

theorem refineOnce_c3 (m : VdMap) (s : Segment) (n : ℕ) : (refineOnce m s n).c3 = s.c3 := rfl

theorem refineOnce_constrain_to (m : VdMap) (s : Segment) (n : ℕ) :
    (refineOnce m s n).constrain_to = s.constrain_to := rfl

theorem refineOnce_update_status (m : VdMap) (s : Segment) (n : ℕ) :
    (refineOnce m s n).update_status = s.update_status := rfl

theorem refineOnce_steps (m : VdMap) (s : Segment) (n : ℕ) : (refineOnce m s n).steps = n := rfl

/-! ## Helper lemmas: the refinement loop -/

theorem refineLoop_c0 (m : VdMap) : ∀ (fuel : ℕ) (s : Segment) (steps : ℕ),
    (refineLoop m s steps fuel).c0 = s.c0
  | 0, s, steps => rfl
  | fuel + 1, s, steps => by
    simp only [refineLoop]
    split
    · exact refineOnce_c0 m s (steps + 1)
    · rw [refineLoop_c0 m fuel]
      exact refineOnce_c0 m s (steps + 1)

theorem refineLoop_c3 (m : VdMap) : ∀ (fuel : ℕ) (s : Segment) (steps : ℕ),
    (refineLoop m s steps fuel).c3 = s.c3
  | 0, s, steps => rfl
  | fuel + 1, s, steps => by
    simp only [refineLoop]
    split
    · exact refineOnce_c3 m s (steps + 1)
    · rw [refineLoop_c3 m fuel]
      exact refineOnce_c3 m s (steps + 1)

theorem refineLoop_constrain_to (m : VdMap) : ∀ (fuel : ℕ) (s : Segment) (steps : ℕ),
    (refineLoop m s steps fuel).constrain_to = s.constrain_to
  | 0, s, steps => rfl
  | fuel + 1, s, steps => by
    simp only [refineLoop]
    split
    · exact refineOnce_constrain_to m s (steps + 1)
    · rw [refineLoop_constrain_to m fuel]
      exact refineOnce_constrain_to m s (steps + 1)

theorem refineLoop_update_status (m : VdMap) : ∀ (fuel : ℕ) (s : Segment) (steps : ℕ),
    (refineLoop m s steps fuel).update_status = s.update_status
  | 0, s, steps => rfl
  | fuel + 1, s, steps => by
    simp only [refineLoop]
    split
    · exact refineOnce_update_status m s (steps + 1)
    · rw [refineLoop_update_status m fuel]
      exact refineOnce_update_status m s (steps + 1)

/-- The loop exits only through its break condition: the result either has
error below the bound or a step counter past the budget. -/
theorem refineLoop_exit (m : VdMap) : ∀ (fuel : ℕ) (s : Segment) (steps : ℕ),
    steps ≤ MAX_ITERATIONS → MAX_ITERATIONS < steps + fuel →
    (refineLoop m s steps fuel).error < MAX_ERROR ∨
      MAX_ITERATIONS < (refineLoop m s steps fuel).steps
  | 0, s, steps, h1, h2 => absurd h2 (by omega)
  | fuel + 1, s, steps, h1, h2 => by
    simp only [refineLoop]
    split
    · rename_i hcond
      rcases hcond with h | h
      · exact Or.inl h
      · exact Or.inr (by rw [refineOnce_steps]; exact h)
    · rename_i hcond
      push_neg at hcond
      exact refineLoop_exit m fuel (refineOnce m s (steps + 1)) (steps + 1)
        (by omega) (by omega)

/-- The step counter recorded on the result never exceeds the budget plus
one. -/
theorem refineLoop_steps_le (m : VdMap) : ∀ (fuel : ℕ) (s : Segment) (steps : ℕ),
    steps ≤ MAX_ITERATIONS → s.steps ≤ MAX_ITERATIONS + 1 →
    (refineLoop m s steps fuel).steps ≤ MAX_ITERATIONS + 1
  | 0, s, steps, _, h2 => h2
  | fuel + 1, s, steps, h1, h2 => by
    simp only [refineLoop]
    split
    · rw [refineOnce_steps]; omega
    · rename_i hcond
      push_neg at hcond
      exact refineLoop_steps_le m fuel (refineOnce m s (steps + 1)) (steps + 1)
        (by omega) (by rw [refineOnce_steps]; omega)

/-! ## Helper lemmas: the continuity constraint keeps c1 on the line -/

theorem refineOnce_c1_constrained (m : VdMap) (s : Segment) (n : ℕ) (u : Vec)
    (h : s.constrain_to = some u) :
    ∃ k : ℚ, (refineOnce m s n).c1 = subVec s.c1 (multVec u k) := by
  refine ⟨dotProduct u (dampedF1 m s) * 6 / (NUM_SAMPLE_POINTS : ℚ), ?_⟩
  simp only [refineOnce, appliedF1, h, subVec, addVec, negateVec, multVec]
  simp only [Vec.mk.injEq]
  constructor <;> ring

theorem refineLoop_colinear (m : VdMap) (u : Vec) : ∀ (fuel : ℕ) (s : Segment) (steps : ℕ),
    s.constrain_to = some u →
    (∃ a : ℚ, subVec s.c1 s.c0 = multVec u a) →
    ∃ a : ℚ, subVec (refineLoop m s steps fuel).c1 (refineLoop m s steps fuel).c0 = multVec u a
  | 0, s, steps, _, hcol => hcol
  | fuel + 1, s, steps, hcon, hcol => by
    obtain ⟨a, ha⟩ := hcol
    obtain ⟨k, hk⟩ := refineOnce_c1_constrained m s (steps + 1) u hcon
    have hstep : ∃ a2 : ℚ,
        subVec (refineOnce m s (steps + 1)).c1 (refineOnce m s (steps + 1)).c0 = multVec u a2 := by
      refine ⟨a - k, ?_⟩
      rw [hk, refineOnce_c0]
      have hx := congrArg Vec.x ha
      have hy := congrArg Vec.y ha
      simp only [subVec, addVec, negateVec, multVec] at hx hy ⊢
      simp only [Vec.mk.injEq]
      constructor
      · linear_combination hx
      · linear_combination hy
    simp only [refineLoop]
    split
    · exact hstep
    · exact refineLoop_colinear m u fuel (refineOnce m s (steps + 1)) (steps + 1)
        (by rw [refineOnce_constrain_to]; exact hcon) hstep

/-! ## Session invariant: statuses, errors and step counters -/

/-- The invariant maintained on every segment of an API session: a SUCCESS
status implies a converged error, and the recorded step count never
exceeds the iteration budget plus one. -/
def SegInv (s : Segment) : Prop :=
  (s.update_status = some UpdateStatus.SUCCESS → s.error < MAX_ERROR) ∧
    s.steps ≤ MAX_ITERATIONS + 1

def CurveInv (c : Curve) : Prop := ∀ s ∈ c.segments, SegInv s

theorem defaultSegment_SegInv : SegInv defaultSegment := by
  constructor
  · intro h
    simp [defaultSegment, initCurveSegment] at h
  · simp [defaultSegment, initCurveSegment, MAX_ITERATIONS]

theorem initCurveSegment_SegInv (x y : ℚ) : SegInv (initCurveSegment x y) := by
  constructor
  · intro h
    simp [initCurveSegment] at h
  · simp [initCurveSegment, MAX_ITERATIONS]

theorem getLastSegment_SegInv (c : Curve) (h : CurveInv c) : SegInv (getLastSegment c) := by
  rcases hseg : c.segments with _ | ⟨a, t⟩
  · have : getLastSegment c = defaultSegment := by
      simp [getLastSegment, hseg, lastSegOf]
    rw [this]
    exact defaultSegment_SegInv
  · exact h _ (by rw [getLastSegment, hseg]; exact lastSegOf_mem _ (by simp))

theorem finalizeSeg_SegInv (og r : Segment)
    (hexit : r.error < MAX_ERROR ∨ MAX_ITERATIONS < r.steps)
    (hsteps : r.steps ≤ MAX_ITERATIONS + 1) :
    SegInv (finalizeSeg og r) := by
  unfold finalizeSeg
  split
  · exact ⟨fun hs => by simp at hs, hsteps⟩
  · rename_i hnot
    refine ⟨fun _ => ?_, hsteps⟩
    rcases hexit with he | hs
    · exact he
    · exact absurd hs hnot

theorem refinedSeg_steps_le (c : Curve) (p : Vec)
    (h : (getLastSegment c).steps ≤ MAX_ITERATIONS + 1) :
    (refinedSeg c p).steps ≤ MAX_ITERATIONS + 1 := by
  unfold refinedSeg
  exact refineLoop_steps_le _ _ _ _ (by omega) h

theorem refinedSeg_exit (c : Curve) (p : Vec) :
    (refinedSeg c p).error < MAX_ERROR ∨ MAX_ITERATIONS < (refinedSeg c p).steps := by
  unfold refinedSeg
  exact refineLoop_exit _ _ _ _ (by omega) (by simp [MAX_ITERATIONS])

theorem updateDistanceField_SegInv (c : Curve) (p : Vec) (h : SegInv (getLastSegment c)) :
    SegInv ((updateDistanceField c p).2) := by
  unfold updateDistanceField
  dsimp only
  split
  · exact ⟨fun hs => by simp at hs, h.2⟩
  · exact finalizeSeg_SegInv _ _ (refinedSeg_exit c p)
      (refinedSeg_steps_le c p (by
        have := refineOnce_steps
        exact h.2))

theorem updateDistanceField_CurveInv (c : Curve) (p : Vec) (h : CurveInv c) :
    CurveInv ((updateDistanceField c p).1) := by
  have hlast := getLastSegment_SegInv c h
  have hret := updateDistanceField_SegInv c p hlast
  intro s hs
  revert hs hret
  unfold updateDistanceField
  dsimp only
  split
  · intro hret hs
    simp only at hs hret
    rcases mem_replaceLast _ _ _ hs with hmem | rfl
    · exact h _ hmem
    · exact hret
  · intro hret hs
    simp only at hs hret
    rcases mem_replaceLast _ _ _ hs with hmem | rfl
    · exact h _ hmem
    · exact hret

theorem addToCurveImpl_inv (c : Curve) (p : Vec) (h : CurveInv c) :
    CurveInv ((addToCurveImpl c p).1) ∧ SegInv ((addToCurveImpl c p).2) := by
  unfold addToCurveImpl
  dsimp only
  split
  · exact ⟨h, getLastSegment_SegInv c h⟩
  · rename_i hdup
    set last_segment := getLastSegment c with hlast
    have step : ∀ c2 : Curve, CurveInv c2 →
        CurveInv ((updateDistanceField c2 p).1) ∧ SegInv ((updateDistanceField c2 p).2) :=
      fun c2 h2 => ⟨updateDistanceField_CurveInv c2 p h2,
        updateDistanceField_SegInv c2 p (getLastSegment_SegInv c2 h2)⟩
    split
    · apply step
      intro s hs
      simp only [List.mem_append, List.mem_singleton] at hs
      rcases hs with hs | rfl
      · exact h _ hs
      · exact initCurveSegment_SegInv _ _
    · apply step
      intro s hs
      simp only [List.mem_append, List.mem_singleton] at hs
      rcases hs with hs | rfl
      · exact h _ hs
      · constructor
        · intro hcontra
          simp [initCurveSegment] at hcontra
        · simp [initCurveSegment, MAX_ITERATIONS]
    · exact step c h

theorem addToCurve_inv (c : Curve) (coord : Vec) (h : CurveInv c) :
    CurveInv ((addToCurve c coord).1) ∧ SegInv ((addToCurve c coord).2) := by
  unfold addToCurve
  dsimp only
  have h1 := addToCurveImpl_inv c (roundVec coord) h
  split
  · exact h1
  · exact addToCurveImpl_inv _ (roundVec coord) h1.1

theorem startCurve_CurveInv (start : Vec) : CurveInv (startCurve start) := by
  intro s hs
  simp only [startCurve, createCurve, List.mem_singleton] at hs
  subst hs
  exact initCurveSegment_SegInv _ _

theorem runCurveAux_inv : ∀ (pts : List Vec) (c : Curve) (s : Segment),
    CurveInv c → SegInv s →
    CurveInv ((pts.foldl (fun acc p => addToCurve acc.1 p) (c, s)).1) ∧
      SegInv ((pts.foldl (fun acc p => addToCurve acc.1 p) (c, s)).2)
  | [], c, s, hc, hs => ⟨hc, hs⟩
  | p :: rest, c, s, hc, hs => by
    simp only [List.foldl_cons]
    have h1 := addToCurve_inv c p hc
    exact runCurveAux_inv rest _ _ h1.1 h1.2

theorem runCurve_inv (start : Vec) (pts : List Vec) :
    CurveInv ((runCurve start pts).1) ∧ SegInv ((runCurve start pts).2) := by
  unfold runCurve
  exact runCurveAux_inv pts _ _ (startCurve_CurveInv start)
    (getLastSegment_SegInv _ (startCurve_CurveInv start))

/-! ## Claim C1: termination and the iteration budget -/

set_option maxRecDepth 1000000

/-- C1 (amended): every AddToCurve call of a session terminates (all model
functions are total, and by `refineLoop_exit` the loop fuel never runs
out: the loop always stops through its own break condition), and every
segment ever produced records at most MAX_ITERATIONS + 1 = 51 refinement
steps.  The bound of 50 claimed by the spec is off by one: the loop body
runs once more before the `steps > MAX_ITERATIONS` break fires, see
`c1_counterexample`. -/
theorem c1_steps_bounded (start : Vec) (pts : List Vec) :
    ((runCurve start pts).1.segments.all fun s =>
      decide (s.steps ≤ MAX_ITERATIONS + 1)) = true := by
  rw [List.all_eq_true]
  intro s hs
  exact decide_eq_true ((runCurve_inv start pts).1 s hs).2

unseal Rat.add Rat.mul Rat.inv Rat.sub in
/-- C1 counterexample: the session StartCurve (0,0); AddToCurve (24,0);
AddToCurve (24,24) leaves a segment whose recorded step counter is 51,
refuting the claim that no call performs more than 50 refinement steps.
The second call fails to converge (a right angle cannot be fitted by one
cubic within the error bound), the loop body executes 51 times, and the
segment is rolled back with FAIL_MAXED and steps = 51. -/
theorem c1_counterexample :
    ((runCurve ⟨0, 0⟩ [⟨24, 0⟩, ⟨24, 24⟩]).1.segments.all fun s =>
      decide (s.steps ≤ MAX_ITERATIONS)) = false := by
  decide!

/-! ## Claim C2: SUCCESS implies converged error -/

/-- C2: every segment returned by AddToCurve with update status SUCCESS
has error below MAX_ERROR = 2.  The status SUCCESS is only ever assigned
on the branch where the loop exited with error below the bound and the
step counter within budget, and a stale SUCCESS returned by the duplicate
suppression path carries the error that satisfied the bound when it was
assigned. -/
theorem c2_success_error_lt (start : Vec) (pts : List Vec)
    (h : ((runCurve start pts).2).update_status = some UpdateStatus.SUCCESS) :
    ((runCurve start pts).2).error < MAX_ERROR :=
  ((runCurve_inv start pts).2).1 h

unseal Rat.add Rat.mul Rat.inv Rat.sub in
theorem c2_witness :
    ((runCurve ⟨0, 0⟩ [⟨24, 0⟩]).2).update_status = some UpdateStatus.SUCCESS ∧
    ((runCurve ⟨0, 0⟩ [⟨24, 0⟩]).2).error < MAX_ERROR :=
  ⟨by decide!, c2_success_error_lt ⟨0, 0⟩ [⟨24, 0⟩] (by decide!)⟩

/-! ## Claim C3: FAIL_MAXED rolls back to the entry snapshot -/

/-- C3: the refiner returns FAIL_MAXED exactly when the corner check
passed and the loop exhausted the budget (recorded step counter above
MAX_ITERATIONS), and in that case the returned segment carries the control
points, error and constrain_to of the snapshot taken at entry (before the
extend, paint and refine steps), exactly as the entry segment had them. -/
theorem c3_failMaxed_rollback (c : Curve) (p : Vec) :
    (((updateDistanceField c p).2).update_status = some UpdateStatus.FAIL_MAXED ↔
      checkCorner (getLastSegment c) p = false ∧
        MAX_ITERATIONS < ((updateDistanceField c p).2).steps) ∧
    (((updateDistanceField c p).2).update_status = some UpdateStatus.FAIL_MAXED →
      ((updateDistanceField c p).2).c0 = (getLastSegment c).c0 ∧
      ((updateDistanceField c p).2).c1 = (getLastSegment c).c1 ∧
      ((updateDistanceField c p).2).c2 = (getLastSegment c).c2 ∧
      ((updateDistanceField c p).2).c3 = (getLastSegment c).c3 ∧
      ((updateDistanceField c p).2).error = (getLastSegment c).error ∧
      ((updateDistanceField c p).2).constrain_to = (getLastSegment c).constrain_to) := by
  unfold updateDistanceField
  dsimp only
  split
  · rename_i hcorner
    constructor
    · constructor
      · intro h; simp at h
      · rintro ⟨hfalse, -⟩
        rw [hcorner] at hfalse
        exact absurd hfalse (by simp)
    · intro h; simp at h
  · rename_i hcorner
    rw [Bool.not_eq_true] at hcorner
    unfold finalizeSeg
    split
    · rename_i hmax
      exact ⟨⟨fun _ => ⟨hcorner, hmax⟩, fun _ => rfl⟩,
        fun _ => ⟨rfl, rfl, rfl, rfl, rfl, rfl⟩⟩
    · rename_i hmax
      constructor
      · constructor
        · intro h; simp at h
        · rintro ⟨-, hsteps⟩
          exact absurd hsteps hmax
      · intro h; simp at h

/-- A handcrafted curve state whose refinement cannot converge: the
interior controls sit a million pixels away, so at least one sampled
point always misses the painted field and the error stays far above the
bound for all 51 loop iterations. -/
def farSegment : Segment :=
  { c0 := ⟨0, 0⟩, c1 := ⟨1000000, 1000000⟩, c2 := ⟨1000000, 1000000⟩, c3 := ⟨0, 0⟩,
    constrain_to := none, error := 5, update_status := some UpdateStatus.SUCCESS, steps := 3 }

def farCurve : Curve := { segments := [farSegment], vdmap := NatMap.nil }

unseal Rat.add Rat.mul Rat.inv Rat.sub in
theorem c3_witness :
    ((updateDistanceField farCurve ⟨2, 0⟩).2).c0 = (getLastSegment farCurve).c0 ∧
    ((updateDistanceField farCurve ⟨2, 0⟩).2).c1 = (getLastSegment farCurve).c1 ∧
    ((updateDistanceField farCurve ⟨2, 0⟩).2).c2 = (getLastSegment farCurve).c2 ∧
    ((updateDistanceField farCurve ⟨2, 0⟩).2).c3 = (getLastSegment farCurve).c3 ∧
    ((updateDistanceField farCurve ⟨2, 0⟩).2).error = (getLastSegment farCurve).error ∧
    ((updateDistanceField farCurve ⟨2, 0⟩).2).constrain_to =
      (getLastSegment farCurve).constrain_to :=
  (c3_failMaxed_rollback farCurve ⟨2, 0⟩).2 (by decide!)

/-! ## Claim C4: the corner classification rule -/

/-- Modelled from the claim text: the corner rule with the exit tangent
read as the direction FROM the curve point at parameter t = 0.95 TO the
curve end point, that is, c3 minus the point at 0.95.  (The code computes
the opposite direction: point at 0.95 minus c3.) -/
def cornerByClaim (s : Segment) (p : Vec) : Bool :=
  if equalVec s.c0 s.c3 then false
  else
    radiansToDegreesLtMax (dotProduct
      (getUnitVector (subVec s.c3 (getPointAlongCurve s (19 / 20))))
      (getUnitVector (subVec p s.c3)))

/-- The corner rule as the code has it: the exit tangent is the direction
from the curve end point back to the curve point at t = 0.95 (pointing
into the curve), so a corner is flagged exactly when the candidate
direction doubles back on the stroke. -/
def cornerAmended (s : Segment) (p : Vec) : Bool :=
  if equalVec s.c0 s.c3 then false
  else
    radiansToDegreesLtMax (dotProduct
      (getUnitVector (subVec (getPointAlongCurve s (19 / 20)) s.c3))
      (getUnitVector (subVec p s.c3)))

/-- A segment produced by fitting the straight stroke (0,0) to (24,0) in
first guess form: c0 = c1 at the start, c2 = c3 at the end. -/
def c4Seg : Segment :=
  { c0 := ⟨0, 0⟩, c1 := ⟨0, 0⟩, c2 := ⟨24, 0⟩, c3 := ⟨24, 0⟩,
    constrain_to := none, error := 0, update_status := some UpdateStatus.SUCCESS, steps := 1 }

unseal Rat.add Rat.mul Rat.inv Rat.sub in
/-- C4 counterexample: for the straight continuation (24,0) to (30,0) of a
straight segment, the code reports no corner (the backward tangent makes a
180 degree angle with the forward continuation), while the claim rule
(tangent read from the t = 0.95 point toward the end) makes the angle 0
and reports a corner.  The two classifications disagree at this concrete
input, so the claim direction of the exit tangent is reversed. -/
theorem c4_counterexample :
    checkCorner c4Seg ⟨30, 0⟩ = false ∧ cornerByClaim c4Seg ⟨30, 0⟩ = true := by
  decide!

/-- C4 (amended): a segment whose start and end anchors coincide is never
a corner, and the classification is exactly the 80 degree rule with the
exit tangent pointing from the curve end back toward the t = 0.95 curve
point (the reverse of the direction stated in the claim). -/
theorem c4_corner_rule :
    (∀ (s : Segment) (p : Vec), equalVec s.c0 s.c3 = true → checkCorner s p = false) ∧
    (∀ (s : Segment) (p : Vec), checkCorner s p = cornerAmended s p) := by
  constructor
  · intro s p h
    simp [checkCorner, h]
  · intro s p
    simp [checkCorner, cornerAmended, SHOULD_USE_NEW_CORNER_FINDER, subVec, addVec,
      negateVec, sub_eq_add_neg]

unseal Rat.add Rat.mul Rat.inv Rat.sub in
theorem c4_witness :
    checkCorner (initCurveSegment 5 5) ⟨9, 9⟩ = false ∧
    checkCorner c4Seg ⟨30, 0⟩ = cornerAmended c4Seg ⟨30, 0⟩ :=
  ⟨c4_corner_rule.1 (initCurveSegment 5 5) ⟨9, 9⟩ (by decide!),
   c4_corner_rule.2 c4Seg ⟨30, 0⟩⟩

/-! ## Claim C5: the zero length unit vector is not guarded -/

/-- A reachable looking curve state: a FAIL_MAXED segment whose second
interior control equals its end anchor, as restoration leaves it when the
failed attempt was the first one on a fresh segment. -/
def c5Segment : Segment :=
  { c0 := ⟨0, 0⟩, c1 := ⟨1, 1⟩, c2 := ⟨7, 7⟩, c3 := ⟨7, 7⟩,
    constrain_to := none, error := 3, update_status := some UpdateStatus.FAIL_MAXED, steps := 51 }

def c5Curve : Curve := { segments := [c5Segment], vdmap := NatMap.nil }

unseal Rat.add Rat.mul Rat.inv Rat.sub in
/-- C5 evidence: `getUnitVector` contains no guard for the zero length
vector.  At the zero vector its magnitude is 0 and both components are
divided by it, which in JS produces NaN (0/0); the rational model's total
division returns 0, so the zero vector itself comes back.  Moreover the
FAIL_MAXED continuation site (source line 90) feeds exactly such a zero
tangent into `getUnitVector` whenever the failed segment has c2 = c3, and
the resulting degenerate constraint is stored on the returned segment
unchecked: in JS, `constrain_to` would be a NaN vector and the refinement
update would write NaN into c1. -/
theorem c5_unguarded_zero_vector :
    getMagnitude vecZero vecZero = 0 ∧
    getUnitVector vecZero = vecZero ∧
    getCurveEndTangent c5Segment = vecZero ∧
    ((addToCurveImpl c5Curve ⟨9, 7⟩).2).constrain_to = some vecZero := by
  refine ⟨by decide!, by decide!, by decide!, by decide!⟩

/-! ## Claim C6: the closer wins write rule of the distance field -/

theorem findGo_succ_nil {α : Type} (fuel k : ℕ) :
    NatMap.findGo (fuel + 1) (.nil : NatMap α) k = none := rfl

theorem findGo_succ_node {α : Type} (fuel k : ℕ) (v : Option α) (l r : NatMap α) :
    NatMap.findGo (fuel + 1) (.node v l r) k =
      if k = 0 then v
      else if k % 2 = 0 then NatMap.findGo fuel l (k / 2) else NatMap.findGo fuel r (k / 2) :=
  rfl

theorem insertGo_succ_nil {α : Type} (fuel k : ℕ) (a : α) :
    NatMap.insertGo (fuel + 1) (.nil : NatMap α) k a =
      if k = 0 then .node (some a) .nil .nil
      else if k % 2 = 0 then .node none (NatMap.insertGo fuel .nil (k / 2) a) .nil
      else .node none .nil (NatMap.insertGo fuel .nil (k / 2) a) := rfl

theorem insertGo_succ_node {α : Type} (fuel k : ℕ) (a : α) (v : Option α) (l r : NatMap α) :
    NatMap.insertGo (fuel + 1) (.node v l r) k a =
      if k = 0 then .node (some a) l r
      else if k % 2 = 0 then .node v (NatMap.insertGo fuel l (k / 2) a) r
      else .node v l (NatMap.insertGo fuel r (k / 2) a) := rfl

theorem findGo_insertGo_self {α : Type} : ∀ (fuel : ℕ) (t : NatMap α) (k : ℕ) (a : α),
    k < 2 ^ fuel →
    NatMap.findGo (fuel + 1) (NatMap.insertGo (fuel + 1) t k a) k = some a
  | fuel, t, 0, a, _ => by
    cases t with
    | nil => rw [insertGo_succ_nil, if_pos rfl, findGo_succ_node, if_pos rfl]
    | node v l r => rw [insertGo_succ_node, if_pos rfl, findGo_succ_node, if_pos rfl]
  | 0, _, k + 1, _, h => by simp at h
  | fuel + 1, t, k + 1, a, h => by
    have hlt : (k + 1) / 2 < 2 ^ fuel := by
      have h3 : 2 ^ (fuel + 1) = 2 * 2 ^ fuel := by ring
      omega
    have ih := fun (t2 : NatMap α) => findGo_insertGo_self fuel t2 ((k + 1) / 2) a hlt
    have hnz : k + 1 ≠ 0 := Nat.succ_ne_zero k
    by_cases hpar : (k + 1) % 2 = 0
    · cases t with
      | nil =>
        rw [insertGo_succ_nil, if_neg hnz, if_pos hpar, findGo_succ_node, if_neg hnz, if_pos hpar]
        exact ih _
      | node v l r =>
        rw [insertGo_succ_node, if_neg hnz, if_pos hpar, findGo_succ_node, if_neg hnz,
          if_pos hpar]
        exact ih _
    · cases t with
      | nil =>
        rw [insertGo_succ_nil, if_neg hnz, if_neg hpar, findGo_succ_node, if_neg hnz, if_neg hpar]
        exact ih _
      | node v l r =>
        rw [insertGo_succ_node, if_neg hnz, if_neg hpar, findGo_succ_node, if_neg hnz,
          if_neg hpar]
        exact ih _

theorem findGo_insertGo_ne {α : Type} : ∀ (fuel : ℕ) (t : NatMap α) (k k2 : ℕ) (a : α),
    k ≠ k2 →
    NatMap.findGo fuel (NatMap.insertGo fuel t k a) k2 = NatMap.findGo fuel t k2
  | 0, t, _, _, _, _ => rfl
  | fuel + 1, t, k, k2, a, hne => by
    by_cases hk : k = 0
    · subst hk
      have hnz2 : k2 ≠ 0 := fun h => hne h.symm
      cases t with
      | nil =>
        rw [insertGo_succ_nil, if_pos rfl, findGo_succ_node, if_neg hnz2, findGo_succ_nil]
        by_cases hp2 : k2 % 2 = 0
        · rw [if_pos hp2]; cases fuel <;> rfl
        · rw [if_neg hp2]; cases fuel <;> rfl
      | node v l r =>
        rw [insertGo_succ_node, if_pos rfl, findGo_succ_node, if_neg hnz2, findGo_succ_node,
          if_neg hnz2]
    · by_cases hk2 : k2 = 0
      · subst hk2
        cases t with
        | nil =>
          rw [insertGo_succ_nil, if_neg hk, findGo_succ_nil]
          by_cases hp1 : k % 2 = 0
          · rw [if_pos hp1, findGo_succ_node, if_pos rfl]
          · rw [if_neg hp1, findGo_succ_node, if_pos rfl]
        | node v l r =>
          rw [insertGo_succ_node, if_neg hk]
          by_cases hp1 : k % 2 = 0
          · rw [if_pos hp1, findGo_succ_node, if_pos rfl, findGo_succ_node, if_pos rfl]
          · rw [if_neg hp1, findGo_succ_node, if_pos rfl, findGo_succ_node, if_pos rfl]
      · have hrec : ∀ (t2 : NatMap α), k % 2 = k2 % 2 →
            NatMap.findGo fuel (NatMap.insertGo fuel t2 (k / 2) a) (k2 / 2) =
              NatMap.findGo fuel t2 (k2 / 2) := by
          intro t2 hpar
          have hdq : k / 2 ≠ k2 / 2 := by omega
          exact findGo_insertGo_ne fuel t2 (k / 2) (k2 / 2) a hdq
        by_cases hp1 : k % 2 = 0 <;> by_cases hp2 : k2 % 2 = 0
        · cases t with
          | nil =>
            rw [insertGo_succ_nil, if_neg hk, if_pos hp1, findGo_succ_node, if_neg hk2,
              if_pos hp2, findGo_succ_nil, hrec _ (by omega)]
            cases fuel <;> rfl
          | node v l r =>
            rw [insertGo_succ_node, if_neg hk, if_pos hp1, findGo_succ_node, if_neg hk2,
              if_pos hp2, findGo_succ_node, if_neg hk2, if_pos hp2, hrec _ (by omega)]
        · cases t with
          | nil =>
            rw [insertGo_succ_nil, if_neg hk, if_pos hp1, findGo_succ_node, if_neg hk2,
              if_neg hp2, findGo_succ_nil]
            cases fuel <;> rfl
          | node v l r =>
            rw [insertGo_succ_node, if_neg hk, if_pos hp1, findGo_succ_node, if_neg hk2,
              if_neg hp2, findGo_succ_node, if_neg hk2, if_neg hp2]
        · cases t with
          | nil =>
            rw [insertGo_succ_nil, if_neg hk, if_neg hp1, findGo_succ_node, if_neg hk2,
              if_pos hp2, findGo_succ_nil]
            cases fuel <;> rfl
          | node v l r =>
            rw [insertGo_succ_node, if_neg hk, if_neg hp1, findGo_succ_node, if_neg hk2,
              if_pos hp2, findGo_succ_node, if_neg hk2, if_pos hp2]
        · cases t with
          | nil =>
            rw [insertGo_succ_nil, if_neg hk, if_neg hp1, findGo_succ_node, if_neg hk2,
              if_neg hp2, findGo_succ_nil, hrec _ (by omega)]
            cases fuel <;> rfl
          | node v l r =>
            rw [insertGo_succ_node, if_neg hk, if_neg hp1, findGo_succ_node, if_neg hk2,
              if_neg hp2, findGo_succ_node, if_neg hk2, if_neg hp2, hrec _ (by omega)]

/-- Keys representable within the trie fuel; every coordinate appearing in
this development is far below the bound. -/
def KeyOK (q : ℚ) : Prop := encRat q < 2 ^ 127

instance (q : ℚ) : Decidable (KeyOK q) := inferInstanceAs (Decidable (encRat q < 2 ^ 127))

theorem find_insert_self {α : Type} (t : NatMap α) (k : ℕ) (a : α) (h : k < 2 ^ 127) :
    (t.insert k a).find k = some a :=
  findGo_insertGo_self 127 t k a h

theorem find_insert_ne {α : Type} (t : NatMap α) (k k2 : ℕ) (a : α) (h : k ≠ k2) :
    (t.insert k a).find k2 = t.find k2 :=
  findGo_insertGo_ne 128 t k k2 a h

/-- The monotone non worsening property of a distance field transformer:
an already stored pixel keeps a value at least as close after the
transformation. -/
def nonWorsening (f : VdMap → VdMap) : Prop :=
  ∀ (m : VdMap) (x y : ℚ) (v : Vec), KeyOK x → KeyOK y → vdLookup m x y = some v →
    ∃ w, vdLookup (f m) x y = some w ∧ sumOfSquaresVec w ≤ sumOfSquaresVec v

theorem nonWorsening_comp {f g : VdMap → VdMap}
    (hf : nonWorsening f) (hg : nonWorsening g) : nonWorsening (fun m => g (f m)) := by
  intro m x y v hx hy hv
  obtain ⟨w, hw, hle⟩ := hf m x y v hx hy hv
  obtain ⟨w2, hw2, hle2⟩ := hg (f m) x y w hx hy hw
  exact ⟨w2, hw2, le_trans hle2 hle⟩

theorem vdStore_nonWorsening (x0 y0 : ℚ) (v0 : Vec) :
    nonWorsening (fun m => vdStore m x0 y0 v0) := by
  intro m x y v hx hy hv
  have hcol : ∃ col, m.find (encRat x) = some col ∧ col.find (encRat y) = some v := by
    revert hv
    unfold vdLookup
    rcases m.find (encRat x) with _ | col
    · intro h; exact absurd h (by simp)
    · intro h; exact ⟨col, rfl, h⟩
  obtain ⟨col, hfc, hfy⟩ := hcol
  unfold vdLookup vdStore
  dsimp only
  by_cases hxx : encRat x0 = encRat x
  · rw [hxx, hfc]
    dsimp only
    rw [find_insert_self _ _ _ hx]
    dsimp only
    by_cases hyy : encRat y0 = encRat y
    · rw [hyy, hfy]
      dsimp only
      rw [find_insert_self _ _ _ hy]
      by_cases hcl : sumOfSquaresVec v < sumOfSquaresVec v0
      · rw [if_pos hcl]
        exact ⟨v, rfl, le_rfl⟩
      · rw [if_neg hcl]
        exact ⟨v0, rfl, le_of_not_lt hcl⟩
    · rw [find_insert_ne _ _ _ _ hyy, hfy]
      exact ⟨v, rfl, le_rfl⟩
  · rw [find_insert_ne _ _ _ _ hxx, hfc]
    dsimp only
    exact ⟨v, hfy, le_rfl⟩

theorem stripColumn_nonWorsening : ∀ (n : ℕ) (loc val inc : Vec),
    nonWorsening (fun m => stripColumn loc val inc m n)
  | 0, _, _, _ => fun _ _ _ v _ _ hv => ⟨v, hv, le_rfl⟩
  | n + 1, loc, val, inc =>
    nonWorsening_comp
      (vdStore_nonWorsening (jround loc.x) (jround loc.y) (roundVec val))
      (stripColumn_nonWorsening n (addVec loc inc) (addVec val inc) inc)

theorem stripRows_nonWorsening (dist vinc : Vec) (vcount : ℕ) (hinc : Vec) :
    ∀ (n : ℕ) (hloc : Vec), nonWorsening (fun m => stripRows dist vinc vcount hinc hloc m n)
  | 0, _ => fun _ _ _ v _ _ hv => ⟨v, hv, le_rfl⟩
  | n + 1, hloc =>
    nonWorsening_comp
      (stripColumn_nonWorsening vcount hloc dist vinc)
      (stripRows_nonWorsening dist vinc vcount hinc n (addVec hloc hinc))

theorem capColumn_nonWorsening (p : Vec) (x : ℚ) : ∀ (n : ℕ) (y : ℚ),
    nonWorsening (fun m => capColumn p x y m n)
  | 0, _ => fun _ _ _ v _ _ hv => ⟨v, hv, le_rfl⟩
  | n + 1, y =>
    nonWorsening_comp
      (vdStore_nonWorsening x y (subVec ⟨x, y⟩ p))
      (capColumn_nonWorsening p x n (y + 1))

theorem capRows_nonWorsening (p : Vec) (ycount : ℕ) (uly : ℚ) : ∀ (n : ℕ) (x : ℚ),
    nonWorsening (fun m => capRows p ycount uly x m n)
  | 0, _ => fun _ _ _ v _ _ hv => ⟨v, hv, le_rfl⟩
  | n + 1, x =>
    nonWorsening_comp
      (capColumn_nonWorsening p x ycount uly)
      (capRows_nonWorsening p ycount uly n (x + 1))

/-- C6 (amended): during both the strip rasterization and the end cap
stamping every pixel write goes through the single store rule, under
which an already stored value is kept exactly when it is strictly closer
(smaller squared magnitude) than the candidate; on ties the candidate
replaces the stored value.  Consequently neither pass ever makes a stored
pixel farther, and whenever the stored value is not strictly closer the
candidate is what remains stored. -/
theorem c6_store_rule :
    (∀ last_point current_point : Vec,
      nonWorsening (fun m => paintStrip m last_point current_point)) ∧
    (∀ p : Vec, nonWorsening (fun m => paintEndCap m p)) ∧
    (∀ (m : VdMap) (x y : ℚ) (v w : Vec), KeyOK x → KeyOK y →
      vdLookup m x y = some v → ¬ sumOfSquaresVec v < sumOfSquaresVec w →
      vdLookup (vdStore m x y w) x y = some w) := by
  refine ⟨?_, ?_, ?_⟩
  · intro a b
    unfold paintStrip
    exact stripRows_nonWorsening _ _ _ _ _ _
  · intro p
    unfold paintEndCap
    exact capRows_nonWorsening _ _ _ _ _
  · intro m x y v w hx hy hv hcl
    have hcol : ∃ col, m.find (encRat x) = some col ∧ col.find (encRat y) = some v := by
      revert hv
      unfold vdLookup
      rcases m.find (encRat x) with _ | col
      · intro h; exact absurd h (by simp)
      · intro h; exact ⟨col, rfl, h⟩
    obtain ⟨col, hfc, hfy⟩ := hcol
    unfold vdLookup vdStore
    dsimp only
    rw [hfc]
    dsimp only
    rw [find_insert_self _ _ _ hx]
    dsimp only
    rw [hfy]
    dsimp only
    rw [find_insert_self _ _ _ hy, if_neg hcl]

/-- The concrete distance field holding the offset (1,0) at pixel (0,0). -/
def tieMap : VdMap := vdStore NatMap.nil 0 0 ⟨1, 0⟩

unseal Rat.add Rat.mul Rat.inv Rat.sub in
/-- C6 counterexample: painting the end cap for the point (0,1) visits the
pixel (0,0) with candidate offset (0,-1), whose squared magnitude 1 ties
with the stored (1,0).  The claim says ties keep the existing value, but
after the pass the stored value is the candidate (0,-1), not (1,0). -/
theorem c6_counterexample :
    sumOfSquaresVec (⟨0, -1⟩ : Vec) = sumOfSquaresVec (⟨1, 0⟩ : Vec) ∧
    vdLookup tieMap 0 0 = some ⟨1, 0⟩ ∧
    vdLookup (paintEndCap tieMap ⟨0, 1⟩) 0 0 = some ⟨0, -1⟩ := by
  refine ⟨by decide!, by decide!, by decide!⟩

unseal Rat.add Rat.mul Rat.inv Rat.sub in
theorem c6_witness :
    (∃ w, vdLookup (paintEndCap tieMap ⟨0, 1⟩) 0 0 = some w ∧
      sumOfSquaresVec w ≤ sumOfSquaresVec ⟨1, 0⟩) ∧
    vdLookup (vdStore tieMap 0 0 ⟨0, -1⟩) 0 0 = some ⟨0, -1⟩ :=
  ⟨c6_store_rule.2.1 ⟨0, 1⟩ tieMap 0 0 ⟨1, 0⟩ (by decide!) (by decide!) (by decide!),
   c6_store_rule.2.2 tieMap 0 0 ⟨1, 0⟩ ⟨0, -1⟩ (by decide!) (by decide!) (by decide!)
     (by decide!)⟩

/-! ## Helper lemmas: degenerate corner check and pipeline projections -/

theorem equalVec_self (v : Vec) : equalVec v v = true := by
  simp [equalVec]

theorem checkCorner_degenerate (s : Segment) (p : Vec) (h : equalVec s.c0 s.c3 = true) :
    checkCorner s p = false := by
  simp [checkCorner, h]

theorem initCurveSegment_c0_c3 (x y : ℚ) :
    equalVec (initCurveSegment x y).c0 (initCurveSegment x y).c3 = true :=
  equalVec_self _

theorem extendSegment_c0 (s : Segment) (p : Vec) : (extendSegment s p).c0 = s.c0 := rfl

theorem extendSegment_c1 (s : Segment) (p : Vec) : (extendSegment s p).c1 = s.c1 := rfl

theorem extendSegment_constrain_to (s : Segment) (p : Vec) :
    (extendSegment s p).constrain_to = s.constrain_to := rfl

theorem refinedSeg_c0 (c : Curve) (p : Vec) : (refinedSeg c p).c0 = (getLastSegment c).c0 := by
  unfold refinedSeg
  rw [refineLoop_c0]
  rfl

theorem refinedSeg_constrain_to (c : Curve) (p : Vec) :
    (refinedSeg c p).constrain_to = (getLastSegment c).constrain_to := by
  unfold refinedSeg
  rw [refineLoop_constrain_to]
  rfl

theorem finalizeSeg_c0 (og r : Segment) (h : r.c0 = og.c0) : (finalizeSeg og r).c0 = og.c0 := by
  unfold finalizeSeg
  split
  · rfl
  · exact h

theorem finalizeSeg_constrain_to (og r : Segment) (h : r.constrain_to = og.constrain_to) :
    (finalizeSeg og r).constrain_to = og.constrain_to := by
  unfold finalizeSeg
  split
  · rfl
  · exact h

/-- The refiner on a just created segment: the corner check cannot fire
(start and end coincide), so the result is the finalize of the refined
extension, stored in place of the last segment. -/
theorem updateDistanceField_not_corner (c : Curve) (p : Vec)
    (h : checkCorner (getLastSegment c) p = false) :
    updateDistanceField c p =
      ({ c with
          segments := replaceLast (finalizeSeg (getLastSegment c) (refinedSeg c p)) c.segments
          vdmap := paintedMap c p },
        finalizeSeg (getLastSegment c) (refinedSeg c p)) := by
  unfold updateDistanceField
  dsimp only
  rw [if_neg (by simp [h])]

theorem updateDistanceField_corner (c : Curve) (p : Vec)
    (h : checkCorner (getLastSegment c) p = true) :
    updateDistanceField c p =
      ({ c with segments := replaceLast { getLastSegment c with update_status := some UpdateStatus.FAIL_CORNER } c.segments },
        { getLastSegment c with update_status := some UpdateStatus.FAIL_CORNER }) := by
  unfold updateDistanceField
  dsimp only
  rw [if_pos h]

/-! ## Claim C7: the single automatic retry -/

/-- C7: AddToCurve rounds its input once; when the first refinement
attempt returns SUCCESS its result is returned and no second attempt is
made, and otherwise the refinement is invoked exactly one more time with
the same rounded point and that second result is returned
unconditionally. -/
theorem c7_retry_once (c : Curve) (coord : Vec) :
    (((addToCurveImpl c (roundVec coord)).2).update_status = some UpdateStatus.SUCCESS →
      addToCurve c coord = addToCurveImpl c (roundVec coord)) ∧
    (((addToCurveImpl c (roundVec coord)).2).update_status ≠ some UpdateStatus.SUCCESS →
      addToCurve c coord =
        addToCurveImpl (addToCurveImpl c (roundVec coord)).1 (roundVec coord)) := by
  unfold addToCurve
  dsimp only
  constructor
  · intro h
    rw [if_pos h]
  · intro h
    rw [if_neg h]

/-- The curve state after fitting the single straight stroke from (0,0)
to (20,0). -/
def hairpinCurve : Curve := (runCurve ⟨0, 0⟩ [⟨20, 0⟩]).1

unseal Rat.add Rat.mul Rat.inv Rat.sub in
theorem c7_witness :
    ((addToCurveImpl hairpinCurve (roundVec ⟨10, 0⟩)).2).update_status ≠
      some UpdateStatus.SUCCESS ∧
    addToCurve hairpinCurve ⟨10, 0⟩ =
      addToCurveImpl (addToCurveImpl hairpinCurve (roundVec ⟨10, 0⟩)).1 (roundVec ⟨10, 0⟩) :=
  ⟨by decide!, (c7_retry_once hairpinCurve ⟨10, 0⟩).2 (by decide!)⟩

/-! ## Claim C8: a detected corner freezes the old segment and opens one
new segment anchored at its end -/

/-- C8: when the active segment has no failure status stored, the new
point is not a duplicate, and the corner detector fires on it, the
AddToCurve call leaves the prior segment's interior and end controls
c1, c2, c3 unchanged (only its status becomes FAIL_CORNER), appends
exactly one new segment, and that new segment is anchored at the prior
segment's end point. -/
theorem c8_corner_split (c : Curve) (coord : Vec)
    (hst : (getLastSegment c).update_status = none ∨
      (getLastSegment c).update_status = some UpdateStatus.SUCCESS)
    (hdup : ¬ getMagnitude (roundVec coord) (getLastSegment c).c3 < RADIAL_SIMPLIFICATION)
    (hcorner : checkCorner (getLastSegment c) (roundVec coord) = true) :
    ((addToCurve c coord).1).segments.length = c.segments.length + 1 ∧
    (lastSegOf ((addToCurve c coord).1).segments.dropLast).c1 = (getLastSegment c).c1 ∧
    (lastSegOf ((addToCurve c coord).1).segments.dropLast).c2 = (getLastSegment c).c2 ∧
    (lastSegOf ((addToCurve c coord).1).segments.dropLast).c3 = (getLastSegment c).c3 ∧
    (getLastSegment (addToCurve c coord).1).c0 = (getLastSegment c).c3 := by
  have hne : c.segments ≠ [] := by
    intro h0
    have hdef : getLastSegment c = defaultSegment := by
      rw [getLastSegment, h0]
      rfl
    rw [checkCorner_degenerate _ _ (by rw [hdef]; exact equalVec_self _)] at hcorner
    exact Bool.false_ne_true hcorner
  set p := roundVec coord with hp
  set prior := getLastSegment c with hprior
  set s2 : Segment := { prior with update_status := some UpdateStatus.FAIL_CORNER } with hs2
  have himpl1 : addToCurveImpl c p =
      ({ c with segments := replaceLast s2 c.segments }, s2) := by
    unfold addToCurveImpl
    dsimp only
    rw [← hprior]
    rw [if_neg hdup]
    rcases hst with h | h <;> rw [h] <;> exact updateDistanceField_corner c p hcorner
  set c1 : Curve := { c with segments := replaceLast s2 c.segments } with hc1
  have hlast1 : getLastSegment c1 = s2 := by
    rw [hc1, getLastSegment]
    exact lastSegOf_replaceLast s2 c.segments hne
  set newSeg : Segment := initCurveSegment prior.c3.x prior.c3.y with hnew
  set c2 : Curve := { segments := c1.segments ++ [newSeg], vdmap := NatMap.nil } with hc2
  have himpl2 : addToCurveImpl c1 p = updateDistanceField c2 p := by
    unfold addToCurveImpl
    dsimp only
    rw [hlast1]
    rw [show s2.c3 = prior.c3 from rfl]
    rw [if_neg hdup]
  have hlast2 : getLastSegment c2 = newSeg := by
    rw [hc2, getLastSegment]
    exact lastSegOf_append_singleton c1.segments newSeg
  have hnocorner : checkCorner (getLastSegment c2) p = false := by
    rw [hlast2]
    exact checkCorner_degenerate _ _ (initCurveSegment_c0_c3 _ _)
  set s3 : Segment := finalizeSeg (getLastSegment c2) (refinedSeg c2 p) with hs3
  have hudf2 : updateDistanceField c2 p =
      ({ c2 with segments := replaceLast s3 c2.segments, vdmap := paintedMap c2 p }, s3) :=
    updateDistanceField_not_corner c2 p hnocorner
  have hcall : addToCurve c coord =
      ({ c2 with segments := replaceLast s3 c2.segments, vdmap := paintedMap c2 p }, s3) := by
    unfold addToCurve
    dsimp only
    rw [← hp, himpl1]
    rw [if_neg (by rw [hs2]; simp)]
    dsimp only
    rw [himpl2, hudf2]
  have hsegs : replaceLast s3 c2.segments = c1.segments ++ [s3] := by
    rw [hc2]
    exact replaceLast_append_singleton s3 newSeg c1.segments
  rw [hcall]
  dsimp only
  rw [hsegs]
  refine ⟨?_, ?_, ?_, ?_, ?_⟩
  · rw [List.length_append, hc1]
    dsimp only
    rw [replaceLast_length]
    simp
  · rw [dropLast_append_singleton, hc1]
    dsimp only
    rw [lastSegOf_replaceLast s2 c.segments hne, hs2]
  · rw [dropLast_append_singleton, hc1]
    dsimp only
    rw [lastSegOf_replaceLast s2 c.segments hne, hs2]
  · rw [dropLast_append_singleton, hc1]
    dsimp only
    rw [lastSegOf_replaceLast s2 c.segments hne, hs2]
  · rw [getLastSegment]
    dsimp only
    rw [lastSegOf_append_singleton]
    rw [hs3, finalizeSeg_c0 _ _ (by rw [refinedSeg_c0]), hlast2, hnew]
    rfl

unseal Rat.add Rat.mul Rat.inv Rat.sub in
theorem c8_witness :
    ((addToCurve hairpinCurve ⟨10, 0⟩).1).segments.length =
      hairpinCurve.segments.length + 1 ∧
    (lastSegOf ((addToCurve hairpinCurve ⟨10, 0⟩).1).segments.dropLast).c1 =
      (getLastSegment hairpinCurve).c1 ∧
    (lastSegOf ((addToCurve hairpinCurve ⟨10, 0⟩).1).segments.dropLast).c2 =
      (getLastSegment hairpinCurve).c2 ∧
    (lastSegOf ((addToCurve hairpinCurve ⟨10, 0⟩).1).segments.dropLast).c3 =
      (getLastSegment hairpinCurve).c3 ∧
    (getLastSegment (addToCurve hairpinCurve ⟨10, 0⟩).1).c0 =
      (getLastSegment hairpinCurve).c3 :=
  c8_corner_split hairpinCurve ⟨10, 0⟩ (Or.inr (by decide!)) (by decide!) (by decide!)

/-! ## Claim C9: the continuation of a FAIL_MAXED segment is constrained
to the inherited tangent -/

/-- C9: after a FAIL_MAXED predecessor, the refinement operates on a new
segment whose constrain_to is the unit vector of the predecessor's end
tangent 3 (c2 - c3), the returned segment still carries exactly that
constraint, its c1 stays a scalar multiple of that direction away from
its start anchor c0, and (third conjunct) the refinement loop preserves
that colinearity through every iteration: whatever the fuel, a segment
entering the loop constrained and colinear leaves it colinear. -/
theorem c9_constrained_continuation (c : Curve) (p : Vec)
    (hst : (getLastSegment c).update_status = some UpdateStatus.FAIL_MAXED)
    (hdup : ¬ getMagnitude p (getLastSegment c).c3 < RADIAL_SIMPLIFICATION) :
    ((addToCurveImpl c p).2).constrain_to =
      some (getUnitVector (getCurveEndTangent (getLastSegment c))) ∧
    (∃ a : ℚ, subVec ((addToCurveImpl c p).2).c1 ((addToCurveImpl c p).2).c0 =
      multVec (getUnitVector (getCurveEndTangent (getLastSegment c))) a) ∧
    (∀ (m : VdMap) (fuel : ℕ) (s : Segment) (steps : ℕ) (u : Vec),
      s.constrain_to = some u →
      (∃ a : ℚ, subVec s.c1 s.c0 = multVec u a) →
      ∃ a : ℚ, subVec (refineLoop m s steps fuel).c1 (refineLoop m s steps fuel).c0 =
        multVec u a) := by
  set u := getUnitVector (getCurveEndTangent (getLastSegment c)) with hu
  set newSeg : Segment :=
    { initCurveSegment (getLastSegment c).c3.x (getLastSegment c).c3.y with
      constrain_to := some u } with hnew
  set c2 : Curve := { segments := c.segments ++ [newSeg], vdmap := NatMap.nil } with hc2
  have himpl : addToCurveImpl c p = updateDistanceField c2 p := by
    unfold addToCurveImpl
    dsimp only
    rw [if_neg hdup, hst]
  have hlast2 : getLastSegment c2 = newSeg := by
    rw [hc2, getLastSegment]
    exact lastSegOf_append_singleton c.segments newSeg
  have hnocorner : checkCorner (getLastSegment c2) p = false := by
    rw [hlast2]
    exact checkCorner_degenerate _ _ (equalVec_self _)
  have hudf : updateDistanceField c2 p =
      ({ c2 with
          segments := replaceLast (finalizeSeg (getLastSegment c2) (refinedSeg c2 p)) c2.segments
          vdmap := paintedMap c2 p },
        finalizeSeg (getLastSegment c2) (refinedSeg c2 p)) :=
    updateDistanceField_not_corner c2 p hnocorner
  have hres : (addToCurveImpl c p).2 = finalizeSeg (getLastSegment c2) (refinedSeg c2 p) := by
    rw [himpl, hudf]
  have hconres : (addToCurveImpl c p).2.constrain_to = some u := by
    rw [hres, finalizeSeg_constrain_to _ _ (refinedSeg_constrain_to c2 p), hlast2, hnew]
  refine ⟨hconres, ?_, ?_⟩
  · have hcol0 : ∃ a : ℚ, subVec newSeg.c1 newSeg.c0 = multVec u a := by
      refine ⟨0, ?_⟩
      rw [hnew]
      simp [initCurveSegment, subVec, addVec, negateVec, multVec]
    rw [hres]
    unfold finalizeSeg
    split
    · dsimp only
      rw [hlast2]
      exact hcol0
    · have := refineLoop_colinear (paintedMap c2 p) u (MAX_ITERATIONS + 1)
        (extendSegment (getLastSegment c2) p) 0
        (by rw [extendSegment_constrain_to, hlast2, hnew])
        (by rw [extendSegment_c1, extendSegment_c0, hlast2]; exact hcol0)
      exact this
  · intro m fuel s steps u2 hcon hcol
    exact refineLoop_colinear m u2 fuel s steps hcon hcol

/-- A curve whose single segment sits in the FAIL_MAXED state with a
nondegenerate end tangent 3 (c2 - c3) = (-15, 0). -/
def maxedSegment : Segment :=
  { c0 := ⟨0, 0⟩, c1 := ⟨1, 1⟩, c2 := ⟨5, 0⟩, c3 := ⟨10, 0⟩,
    constrain_to := none, error := 7, update_status := some UpdateStatus.FAIL_MAXED,
    steps := 51 }

def maxedCurve : Curve := { segments := [maxedSegment], vdmap := NatMap.nil }

unseal Rat.add Rat.mul Rat.inv Rat.sub in
theorem c9_witness :
    ((addToCurveImpl maxedCurve ⟨20, 0⟩).2).constrain_to =
      some (getUnitVector (getCurveEndTangent (getLastSegment maxedCurve))) ∧
    ∃ a : ℚ, subVec ((addToCurveImpl maxedCurve ⟨20, 0⟩).2).c1
        ((addToCurveImpl maxedCurve ⟨20, 0⟩).2).c0 =
      multVec (getUnitVector (getCurveEndTangent (getLastSegment maxedCurve))) a :=
  have h := c9_constrained_continuation maxedCurve ⟨20, 0⟩ (by decide!) (by decide!)
  ⟨h.1, h.2.1⟩

/-! ## Claim C10: a duplicate point after a failure returns the stale
failed segment untouched -/

/-- C10: when the active segment still stores FAIL_CORNER or FAIL_MAXED
from the previous call and the rounded new point lies within the
simplification radius of its end, AddToCurve returns the same curve and
the same segment, stale failure status included: the duplicate
suppression fires before the status check in both automatic attempts, so
no segment is pushed, the distance field is untouched, and the deferred
new segment creation waits for a non duplicate point. -/
theorem c10_stale_failure_noop (c : Curve) (coord : Vec)
    (hst : (getLastSegment c).update_status = some UpdateStatus.FAIL_CORNER ∨
      (getLastSegment c).update_status = some UpdateStatus.FAIL_MAXED)
    (hdup : getMagnitude (roundVec coord) (getLastSegment c).c3 < RADIAL_SIMPLIFICATION) :
    addToCurve c coord = (c, getLastSegment c) := by
  have himpl : addToCurveImpl c (roundVec coord) = (c, getLastSegment c) := by
    unfold addToCurveImpl
    dsimp only
    rw [if_pos hdup]
  unfold addToCurve
  dsimp only
  rw [himpl]
  dsimp only
  rcases hst with h | h <;> rw [if_neg (by simp [h]), himpl]

def staleSegment : Segment :=
  { c0 := ⟨5, 5⟩, c1 := ⟨5, 5⟩, c2 := ⟨5, 5⟩, c3 := ⟨5, 5⟩,
    constrain_to := none, error := 0, update_status := some UpdateStatus.FAIL_CORNER,
    steps := 7 }

def staleCurve : Curve :=
  { segments := [staleSegment], vdmap := vdStore NatMap.nil 0 0 ⟨1, 1⟩ }

unseal Rat.add Rat.mul Rat.inv Rat.sub in
theorem c10_witness :
    addToCurve staleCurve ⟨52 / 10, 54 / 10⟩ = (staleCurve, getLastSegment staleCurve) :=
  c10_stale_failure_noop staleCurve ⟨52 / 10, 54 / 10⟩ (Or.inl (by decide!)) (by decide!)

end Beziyay
